import Mathlib

/-!
Shallow embedding of the reviewer-assignment service
(`internal/app`: `models.go` and the service file with `Service.CreateTeam`,
`Service.CreatePullRequest`, `Service.MergePullRequest`,
`Service.ReassignReviewer`, `Service.SetUserIsActive`,
`Service.DeactivateTeamMembers`, `Service.GetAssignmentStats`).

The SQL database (tables `teams`, `users`, `pull_requests`) is modelled as an
explicit state `DB`; each service operation becomes a pure function from a
`DB` to an `Except Error (result × DB)`, with the transactional rollback of
the Go code reflected by the error branch returning no new state.
`ORDER BY user_id` / `ORDER BY pull_request_id` on text columns is modelled
by insertion sort under byte-wise lexicographic order on the characters, and
`ORDER BY random() LIMIT 1` by indexing with an arbitrary `seed` parameter.
Timestamps (`NOW()`) are modelled by an explicit `now : Nat` argument.
-/

deriving instance DecidableEq for Except

namespace Avito

/-- Byte-wise lexicographic comparison of character lists, the order Postgres
uses for `ORDER BY` on the text id columns. -/
def charListLe : List Char → List Char → Bool
  | [], _ => true
  | _ :: _, [] => false
  | a :: as, b :: bs => if a < b then true else if b < a then false else charListLe as bs

/-- Lexicographic order on strings (the `ORDER BY` order on id columns). -/
def strLe (a b : String) : Prop := charListLe a.data b.data = true

instance : DecidableRel strLe := fun a b => by
  unfold strLe; infer_instance

/-- Machine-readable application error codes from `models.go`. -/
inductive ErrorCode where
  | TEAM_EXISTS
  | PR_EXISTS
  | PR_MERGED
  | NOT_ASSIGNED
  | NO_CANDIDATE
  | NOT_FOUND
deriving DecidableEq, Repr

/-- Domain error with a code and message, as in `models.go`. -/
structure Error where
  code : ErrorCode
  message : String
deriving DecidableEq, Repr

/-- Row of the `users` table / the `User` struct of `models.go`. -/
structure User where
  id : String
  username : String
  teamName : String
  isActive : Bool
deriving DecidableEq, Repr

/-- Member entry of a team payload (`TeamMember` in `models.go`). -/
structure TeamMember where
  id : String
  username : String
  isActive : Bool
deriving DecidableEq, Repr

/-- Team payload (`Team` in `models.go`). -/
structure Team where
  name : String
  members : List TeamMember
deriving DecidableEq, Repr

/-- Row of the `pull_requests` table / the `PullRequest` struct of
`models.go`; `createdAt` and `mergedAt` are abstract time stamps. -/
structure PullRequest where
  id : String
  name : String
  authorId : String
  status : String
  assignedReviewers : List String
  createdAt : Nat
  mergedAt : Option Nat
deriving DecidableEq, Repr

/-- Whole database state: the three relations of `migrations/001_init.sql`. -/
structure DB where
  teams : List String
  users : List User
  pullRequests : List PullRequest
deriving DecidableEq, Repr

/-- The `ON CONFLICT (user_id) DO UPDATE` upsert used by `CreateTeam`:
an existing row with the same id is overwritten (username, team and active
flag included), otherwise the row is inserted. -/
def upsertUser (us : List User) (u : User) : List User :=
  if us.any (fun x => x.id == u.id) then
    us.map (fun x => if x.id == u.id then u else x)
  else
    us ++ [u]

/-- `Service.CreateTeam`: fail with `TEAM_EXISTS` on a duplicate team name,
otherwise insert the team row and upsert every member row. -/
def createTeam (db : DB) (team : Team) : Except Error (Team × DB) :=
  if db.teams.contains team.name then
    .error ⟨.TEAM_EXISTS, "team_name already exists"⟩
  else
    let users := team.members.foldl
      (fun us m => upsertUser us ⟨m.id, m.username, team.name, m.isActive⟩) db.users
    .ok (team, { db with teams := db.teams ++ [team.name], users := users })

/-- Candidate pool of `Service.CreatePullRequest`: users of the author's
team, excluding the author, restricted to active users (the `WHERE` clause of
the reviewer query). -/
def initialReviewerPool (db : DB) (teamName authorID : String) : List User :=
  db.users.filter (fun u => u.teamName == teamName && u.id != authorID && u.isActive)

/-- `Service.CreatePullRequest`: fail `PR_EXISTS` on a duplicate id, fail
`NOT_FOUND` on a missing author, otherwise insert an OPEN pull request whose
reviewers are the first two ids of the candidate pool in ascending id order
(the Go scan loop stops after two rows of the `ORDER BY user_id` query). -/
def createPullRequest (db : DB) (id name authorID : String) (now : Nat) :
    Except Error (PullRequest × DB) :=
  match db.pullRequests.find? (fun p => p.id == id) with
  | some _ => .error ⟨.PR_EXISTS, "PR id already exists"⟩
  | none =>
    match db.users.find? (fun u => u.id == authorID) with
    | none => .error ⟨.NOT_FOUND, "author or team not found"⟩
    | some author =>
      let assigned :=
        (List.insertionSort strLe ((initialReviewerPool db author.teamName authorID).map User.id)).take 2
      let pr : PullRequest := ⟨id, name, authorID, "OPEN", assigned, now, none⟩
      .ok (pr, { db with pullRequests := db.pullRequests ++ [pr] })

/-- `Service.MergePullRequest`: `UPDATE ... SET status = MERGED,
merged_at = COALESCE(merged_at, NOW()) WHERE pull_request_id = $1`; fail
`NOT_FOUND` when no row matches. -/
def mergePullRequest (db : DB) (prID : String) (now : Nat) :
    Except Error (PullRequest × DB) :=
  match db.pullRequests.find? (fun p => p.id == prID) with
  | none => .error ⟨.NOT_FOUND, "pull request not found"⟩
  | some pr =>
    let pr' : PullRequest := { pr with status := "MERGED", mergedAt := some (pr.mergedAt.getD now) }
    .ok (pr', { db with
      pullRequests := db.pullRequests.map (fun p => if p.id == prID then pr' else p) })

/-- Helper `isReviewerAssigned` of the service file: linear scan of the
assigned-reviewer array. -/
def isReviewerAssigned (assigned : List String) (oldUserID : String) : Bool :=
  assigned.any (fun id => id == oldUserID)

/-- Helper `replaceReviewer` of the service file: in-place replacement of
every occurrence of the old reviewer id. -/
def replaceReviewer (assigned : List String) (oldUserID newUserID : String) : List String :=
  assigned.map (fun id => if id == oldUserID then newUserID else id)

/-- Candidate pool of `Service.ReassignReviewer`: active users of the old
reviewer's team that are neither the old reviewer, nor the author, nor an
already-assigned reviewer (the `WHERE` clause of the candidate query). -/
def reassignCandidates (db : DB) (teamName oldUserID authorID : String)
    (assigned : List String) : List String :=
  (db.users.filter (fun u =>
    u.teamName == teamName && u.isActive && u.id != oldUserID && u.id != authorID &&
      !(assigned.contains u.id))).map User.id

/-- `Service.ReassignReviewer`: precondition checks in source order
(missing PR, merged PR, reviewer not assigned, missing user, empty candidate
pool), then replacement of the old reviewer by a candidate chosen by
`ORDER BY random() LIMIT 1`, modelled by indexing the pool with `seed`. -/
def reassignReviewer (db : DB) (prID oldUserID : String) (seed : Nat) :
    Except Error (PullRequest × String × DB) :=
  match db.pullRequests.find? (fun p => p.id == prID) with
  | none => .error ⟨.NOT_FOUND, "pull request not found"⟩
  | some pr =>
    if pr.status == "MERGED" then
      .error ⟨.PR_MERGED, "cannot reassign on merged PR"⟩
    else if !(isReviewerAssigned pr.assignedReviewers oldUserID) then
      .error ⟨.NOT_ASSIGNED, "reviewer is not assigned to this PR"⟩
    else
      match db.users.find? (fun u => u.id == oldUserID) with
      | none => .error ⟨.NOT_FOUND, "user not found"⟩
      | some oldUser =>
        let candidates :=
          reassignCandidates db oldUser.teamName oldUserID pr.authorId pr.assignedReviewers
        match candidates[seed % candidates.length]? with
        | none => .error ⟨.NO_CANDIDATE, "no active replacement candidate in team"⟩
        | some newUserID =>
          let pr' := { pr with
            assignedReviewers := replaceReviewer pr.assignedReviewers oldUserID newUserID }
          .ok (pr', newUserID, { db with
            pullRequests := db.pullRequests.map (fun p => if p.id == prID then pr' else p) })

/-- `Service.SetUserIsActive`: flip the flag (fail `NOT_FOUND` on a missing
user); on deactivation additionally run `array_remove` on the reviewer array
of every non-MERGED pull request that contains the user. -/
def setUserIsActive (db : DB) (userID : String) (isActive : Bool) :
    Except Error (User × DB) :=
  match db.users.find? (fun u => u.id == userID) with
  | none => .error ⟨.NOT_FOUND, "user not found"⟩
  | some u =>
    let u' := { u with isActive := isActive }
    let users' := db.users.map (fun x => if x.id == userID then { x with isActive := isActive } else x)
    if isActive then
      .ok (u', { db with users := users' })
    else
      let prs' := db.pullRequests.map (fun p =>
        if p.assignedReviewers.contains userID && p.status != "MERGED" then
          { p with assignedReviewers := p.assignedReviewers.filter (fun r => r != userID) }
        else p)
      .ok (u', { db with users := users', pullRequests := prs' })

/-- Order on user rows used to model `ORDER BY user_id` row queries. -/
def userIdLe (u v : User) : Prop := strLe u.id v.id

instance : DecidableRel userIdLe := fun u v => by
  unfold userIdLe; infer_instance

/-- `Service.DeactivateTeamMembers`: fail `NOT_FOUND` on a missing team;
otherwise load the member rows (ordered by id), flip every member's flag to
false, bulk-remove all member ids from the reviewer arrays of non-MERGED
pull requests that overlap them, and return the team with every member
reported inactive. -/
def deactivateTeamMembers (db : DB) (teamName : String) : Except Error (Team × DB) :=
  if db.teams.contains teamName then
    let memberRows := List.insertionSort userIdLe (db.users.filter (fun u => u.teamName == teamName))
    let members := memberRows.map (fun u =>
      ({ id := u.id, username := u.username, isActive := false } : TeamMember))
    let userIDs := memberRows.map User.id
    let users' := db.users.map (fun u =>
      if u.teamName == teamName then { u with isActive := false } else u)
    let prs' :=
      if userIDs.length > 0 then
        db.pullRequests.map (fun p =>
          if p.status != "MERGED" && p.assignedReviewers.any (fun r => userIDs.contains r) then
            { p with assignedReviewers := p.assignedReviewers.filter (fun r => !(userIDs.contains r)) }
          else p)
      else db.pullRequests
    .ok ({ name := teamName, members := members }, { db with users := users', pullRequests := prs' })
  else
    .error ⟨.NOT_FOUND, "team not found"⟩

/-- Per-user assignment count row (`UserAssignmentStat`). -/
structure UserAssignmentStat where
  userID : String
  assignments : Nat
deriving DecidableEq, Repr

/-- Per-pull-request assignment count row (`PRAssignmentStat`). -/
structure PRAssignmentStat where
  pullRequestID : String
  assignments : Nat
deriving DecidableEq, Repr

/-- Aggregated assignment statistics (`AssignmentStats`). -/
structure AssignmentStats where
  byUser : List UserAssignmentStat
  byPR : List PRAssignmentStat
deriving DecidableEq, Repr

/-- Order on pull-request rows used to model `ORDER BY pull_request_id`. -/
def prIdLe (p q : PullRequest) : Prop := strLe p.id q.id

instance : DecidableRel prIdLe := fun p q => by
  unfold prIdLe; infer_instance

/-- `Service.GetAssignmentStats`: per reviewer id, the number of occurrences
in the concatenation of all reviewer arrays (`unnest` + `GROUP BY` +
`COUNT(*)`, ordered by reviewer id), and per pull request the cardinality of
its reviewer array, ordered by pull-request id. -/
def getAssignmentStats (db : DB) : AssignmentStats :=
  let occurrences := db.pullRequests.flatMap PullRequest.assignedReviewers
  let byUser := (List.insertionSort strLe occurrences.dedup).map
    (fun uid => ({ userID := uid, assignments := occurrences.count uid } : UserAssignmentStat))
  let byPR := (List.insertionSort prIdLe db.pullRequests).map
    (fun p => ({ pullRequestID := p.id, assignments := p.assignedReviewers.length } : PRAssignmentStat))
  { byUser := byUser, byPR := byPR }

/-- One service call with all its non-deterministic inputs (clock, random
seed) made explicit. -/
inductive Op where
  | createTeam (team : Team)
  | createPullRequest (id name authorID : String) (now : Nat)
  | mergePullRequest (prID : String) (now : Nat)
  | reassignReviewer (prID oldUserID : String) (seed : Nat)
  | setUserIsActive (userID : String) (isActive : Bool)
  | deactivateTeamMembers (teamName : String)
deriving DecidableEq, Repr

/-- State after one service call: the new state on success, the unchanged
state on a domain error (the Go transaction rolls back). -/
def applyOp (db : DB) : Op → DB
  | .createTeam t =>
    match createTeam db t with
    | .ok (_, db') => db'
    | .error _ => db
  | .createPullRequest id name authorID now =>
    match createPullRequest db id name authorID now with
    | .ok (_, db') => db'
    | .error _ => db
  | .mergePullRequest prID now =>
    match mergePullRequest db prID now with
    | .ok (_, db') => db'
    | .error _ => db
  | .reassignReviewer prID oldUserID seed =>
    match reassignReviewer db prID oldUserID seed with
    | .ok (_, _, db') => db'
    | .error _ => db
  | .setUserIsActive userID isActive =>
    match setUserIsActive db userID isActive with
    | .ok (_, db') => db'
    | .error _ => db
  | .deactivateTeamMembers teamName =>
    match deactivateTeamMembers db teamName with
    | .ok (_, db') => db'
    | .error _ => db

/-- The empty database the service starts from. -/
def initDB : DB := ⟨[], [], []⟩

/-- State reached after a sequence of service calls from the empty
database. -/
def runOps (ops : List Op) : DB := ops.foldl applyOp initDB

/-- Spec-side eligibility of `uid` as an initial reviewer for a pull request
authored by `authorID` on team `teamName`: an active user of the team other
than the author. -/
def EligibleReviewer (db : DB) (teamName authorID uid : String) : Prop :=
  ∃ u ∈ db.users, u.id = uid ∧ u.teamName = teamName ∧ u.isActive = true ∧ uid ≠ authorID

/-- Well-formedness of one pull request row: at most two assigned reviewers,
no duplicate reviewer ids, and the author never among them. -/
def PRWf (pr : PullRequest) : Prop :=
  pr.assignedReviewers.length ≤ 2 ∧ pr.assignedReviewers.Nodup ∧
    pr.authorId ∉ pr.assignedReviewers

/-- Well-formedness of the database: user ids are unique (the `users`
primary key) and every pull request row is well formed. -/
def DBWf (db : DB) : Prop :=
  (db.users.map User.id).Nodup ∧ ∀ pr ∈ db.pullRequests, PRWf pr

/-- Concrete database with one team of four active members, used by the
witness theorems. -/
def dbT : DB := ⟨["T"],
  [⟨"u1","A","T",true⟩, ⟨"u2","B","T",true⟩, ⟨"u3","C","T",true⟩, ⟨"u4","D","T",true⟩], []⟩

/-- Concrete database with one open pull request, used by the witness
theorems. -/
def dbP : DB := ⟨["T"], dbT.users, [⟨"p1","PR1","u1","OPEN",["u2","u3"],5,none⟩]⟩

/-! Order-theoretic facts about the id order used by `ORDER BY`. -/

theorem charListLe_trans : ∀ {l₁ l₂ l₃ : List Char},
    charListLe l₁ l₂ = true → charListLe l₂ l₃ = true → charListLe l₁ l₃ = true
  | [], _, _, _, _ => rfl
  | _ :: _, [], _, h, _ => by simp [charListLe] at h
  | _ :: _, _ :: _, [], _, h => by simp [charListLe] at h
  | a :: as, b :: bs, c :: cs, h₁, h₂ => by
    simp only [charListLe] at h₁ h₂ ⊢
    by_cases hab : a < b
    · by_cases hbc : b < c
      · simp [lt_trans hab hbc]
      · by_cases hcb : c < b
        · simp [hbc, hcb] at h₂
        · have hbc' : b = c := le_antisymm (not_lt.mp hcb) (not_lt.mp hbc)
          subst hbc'
          simp [hab]
    · by_cases hba : b < a
      · simp [hab, hba] at h₁
      · have hab' : a = b := le_antisymm (not_lt.mp hba) (not_lt.mp hab)
        subst hab'
        simp only [lt_irrefl, if_false] at h₁
        by_cases hac : a < c
        · simp [hac]
        · by_cases hca : c < a
          · simp [hac, hca] at h₂
          · have hac' : a = c := le_antisymm (not_lt.mp hca) (not_lt.mp hac)
            subst hac'
            simp only [lt_irrefl, if_false] at h₂ ⊢
            exact charListLe_trans h₁ h₂

theorem charListLe_total : ∀ (l₁ l₂ : List Char),
    charListLe l₁ l₂ = true ∨ charListLe l₂ l₁ = true
  | [], _ => .inl rfl
  | _ :: _, [] => .inr rfl
  | a :: as, b :: bs => by
    simp only [charListLe]
    rcases lt_trichotomy a b with h | h | h
    · left; simp [h]
    · subst h
      simp only [lt_irrefl, if_false]
      exact charListLe_total as bs
    · right; simp [h]

theorem strLe_trans {a b c : String} (h₁ : strLe a b) (h₂ : strLe b c) : strLe a c :=
  charListLe_trans h₁ h₂

theorem strLe_total (a b : String) : strLe a b ∨ strLe b a :=
  charListLe_total a.data b.data

instance : IsTrans String strLe := ⟨fun _ _ _ => strLe_trans⟩

instance : IsTotal String strLe := ⟨strLe_total⟩

instance : IsTrans User userIdLe := ⟨fun _ _ _ => strLe_trans⟩

instance : IsTotal User userIdLe := ⟨fun u v => strLe_total u.id v.id⟩

instance : IsTrans PullRequest prIdLe := ⟨fun _ _ _ => strLe_trans⟩

instance : IsTotal PullRequest prIdLe := ⟨fun p q => strLe_total p.id q.id⟩

/-! Basic lookup and pool-membership lemmas. -/

theorem find?_user_eq_of_mem {us : List User} (h : (us.map User.id).Nodup)
    {u : User} (hu : u ∈ us) {aid : String} (hid : u.id = aid) :
    us.find? (fun x => x.id == aid) = some u := by
  induction us with
  | nil => cases hu
  | cons v vs ih =>
    simp only [List.map_cons, List.nodup_cons, List.mem_map] at h
    rcases List.mem_cons.mp hu with rfl | hmem
    · have : (u.id == aid) = true := by simp [hid]
      simp [List.find?_cons, this]
    · have hv : (v.id == aid) = false := by
        simp only [beq_eq_false_iff_ne, ne_eq]
        intro he
        exact h.1 ⟨u, hmem, by rw [hid, he]⟩
      simp [List.find?_cons, hv, ih h.2 hmem]

theorem mem_initialReviewerPool_map {db : DB} {teamName authorID uid : String} :
    uid ∈ (initialReviewerPool db teamName authorID).map User.id ↔
      EligibleReviewer db teamName authorID uid := by
  simp only [initialReviewerPool, EligibleReviewer, List.mem_map, List.mem_filter,
    Bool.and_eq_true, beq_iff_eq, bne_iff_ne, ne_eq]
  constructor
  · rintro ⟨u, ⟨hu, ⟨hteam, hne⟩, hact⟩, rfl⟩
    exact ⟨u, hu, rfl, hteam, hact, hne⟩
  · rintro ⟨u, hu, rfl, hteam, hact, hne⟩
    exact ⟨u, ⟨hu, ⟨hteam, hne⟩, hact⟩, rfl⟩

/-- C1: in a state with unique user ids where author `authorID` exists and
no pull request with the given id exists, `createPullRequest` succeeds and
the created PR has status OPEN, a null merge timestamp, the given creation
timestamp, and a reviewer list that is exactly the first two user ids, in
ascending id order, among the active users of the author's team other than
the author: it is sorted, duplicate-free, made of eligible users, has
`min 2 (pool size)` elements, and every eligible user left out is at least
as large as every chosen reviewer. -/
theorem createPullRequest_ok
    (db : DB) (id name authorID : String) (now : Nat) (author : User)
    (hIds : (db.users.map User.id).Nodup)
    (hAuthor : author ∈ db.users) (haid : author.id = authorID)
    (hFresh : ∀ pr ∈ db.pullRequests, pr.id ≠ id) :
    ∃ pr db',
      createPullRequest db id name authorID now = .ok (pr, db') ∧
      pr.id = id ∧ pr.name = name ∧ pr.authorId = authorID ∧
      pr.status = "OPEN" ∧ pr.mergedAt = none ∧ pr.createdAt = now ∧
      List.Sorted strLe pr.assignedReviewers ∧
      pr.assignedReviewers.Nodup ∧
      pr.assignedReviewers.length = min 2 (initialReviewerPool db author.teamName authorID).length ∧
      (∀ r ∈ pr.assignedReviewers, EligibleReviewer db author.teamName authorID r) ∧
      (∀ r ∈ pr.assignedReviewers, ∀ v, EligibleReviewer db author.teamName authorID v →
        v ∉ pr.assignedReviewers → strLe r v) ∧
      db' = { db with pullRequests := db.pullRequests ++ [pr] } := by
  have hfind : db.pullRequests.find? (fun p => p.id == id) = none := by
    rw [List.find?_eq_none]
    intro p hp
    simp [hFresh p hp]
  have hfa : db.users.find? (fun u => u.id == authorID) = some author :=
    find?_user_eq_of_mem hIds hAuthor haid
  have hperm : (List.insertionSort strLe ((initialReviewerPool db author.teamName authorID).map User.id)).Perm
      ((initialReviewerPool db author.teamName authorID).map User.id) :=
    List.perm_insertionSort strLe _
  have hsorted : List.Sorted strLe
      (List.insertionSort strLe ((initialReviewerPool db author.teamName authorID).map User.id)) :=
    List.sorted_insertionSort strLe _
  have hpoolNodup : ((initialReviewerPool db author.teamName authorID).map User.id).Nodup :=
    List.Nodup.sublist ((List.filter_sublist db.users).map User.id) hIds
  have hlNodup := hperm.symm.nodup hpoolNodup
  refine ⟨⟨id, name, authorID, "OPEN",
      (List.insertionSort strLe ((initialReviewerPool db author.teamName authorID).map User.id)).take 2,
      now, none⟩, _,
    ?_, rfl, rfl, rfl, rfl, rfl, rfl, ?_, ?_, ?_, ?_, ?_, rfl⟩
  · simp only [createPullRequest, hfind, hfa]
  · exact List.Pairwise.sublist (List.take_sublist 2 _) hsorted
  · exact List.Nodup.sublist (List.take_sublist 2 _) hlNodup
  · rw [List.length_take, hperm.length_eq, List.length_map]
  · intro r hr
    exact mem_initialReviewerPool_map.mp (hperm.mem_iff.mp (List.take_subset 2 _ hr))
  · intro r hr v hv hnv
    have hvl : v ∈ List.insertionSort strLe ((initialReviewerPool db author.teamName authorID).map User.id) :=
      hperm.mem_iff.mpr (mem_initialReviewerPool_map.mpr hv)
    rw [← List.take_append_drop 2
      (List.insertionSort strLe ((initialReviewerPool db author.teamName authorID).map User.id))] at hvl
    rcases List.mem_append.mp hvl with hvt | hvd
    · exact absurd hvt hnv
    · have hp : List.Pairwise strLe
          ((List.insertionSort strLe ((initialReviewerPool db author.teamName authorID).map User.id)).take 2 ++
           (List.insertionSort strLe ((initialReviewerPool db author.teamName authorID).map User.id)).drop 2) := by
        rw [List.take_append_drop]
        exact hsorted
      exact (List.pairwise_append.mp hp).2.2 r hr v hvd

/-- Witness for C1 at the four-member team state of the spec scenario. -/
theorem createPullRequest_ok_witness :
    ∃ pr db', createPullRequest dbT "p1" "PR1" "u1" 5 = .ok (pr, db') ∧
      pr.status = "OPEN" ∧ pr.mergedAt = none ∧ List.Sorted strLe pr.assignedReviewers := by
  obtain ⟨pr, db', heq, _, _, _, hst, hmg, _, hsort, _, _, _, _, _⟩ :=
    createPullRequest_ok dbT "p1" "PR1" "u1" 5 ⟨"u1", "A", "T", true⟩
      (by decide) (by decide) rfl (by decide)
  exact ⟨pr, db', heq, hst, hmg, hsort⟩

/-- C10: `createPullRequest` does not require the author to be active: when
the author lookup resolves but the author's flag is false and the PR id is
fresh, the operation still succeeds, and inactivity only restricts the
candidate pool (every assigned reviewer is an active non-author user). -/
theorem createPullRequest_inactive_author_ok
    (db : DB) (id name authorID : String) (now : Nat) (author : User)
    (hAuthor : db.users.find? (fun u => u.id == authorID) = some author)
    (_hInactive : author.isActive = false)
    (hFresh : ∀ pr ∈ db.pullRequests, pr.id ≠ id) :
    ∃ pr db',
      createPullRequest db id name authorID now = .ok (pr, db') ∧
      pr.id = id ∧ pr.authorId = authorID ∧ pr.status = "OPEN" ∧
      (∀ r ∈ pr.assignedReviewers, ∃ u ∈ db.users, u.id = r ∧ u.isActive = true ∧ r ≠ authorID) ∧
      db' = { db with pullRequests := db.pullRequests ++ [pr] } := by
  have hfind : db.pullRequests.find? (fun p => p.id == id) = none := by
    rw [List.find?_eq_none]
    intro p hp
    simp [hFresh p hp]
  refine ⟨⟨id, name, authorID, "OPEN",
      (List.insertionSort strLe ((initialReviewerPool db author.teamName authorID).map User.id)).take 2,
      now, none⟩, _,
    ?_, rfl, rfl, rfl, ?_, rfl⟩
  · simp only [createPullRequest, hfind, hAuthor]
  · intro r hr
    have hrp : r ∈ (initialReviewerPool db author.teamName authorID).map User.id :=
      (List.perm_insertionSort strLe _).mem_iff.mp (List.take_subset 2 _ hr)
    obtain ⟨u, hu, rfl, _, hact, hne⟩ := mem_initialReviewerPool_map.mp hrp
    exact ⟨u, hu, rfl, hact, hne⟩

/-- Witness for C10 at a state whose author `u1` is inactive. -/
theorem createPullRequest_inactive_author_ok_witness :
    ∃ pr db',
      createPullRequest ⟨["T"], [⟨"u1", "A", "T", false⟩, ⟨"u2", "B", "T", true⟩], []⟩
        "p1" "PR1" "u1" 5 = .ok (pr, db') ∧ pr.id = "p1" := by
  obtain ⟨pr, db', heq, hid, _⟩ :=
    createPullRequest_inactive_author_ok
      ⟨["T"], [⟨"u1", "A", "T", false⟩, ⟨"u2", "B", "T", true⟩], []⟩
      "p1" "PR1" "u1" 5 ⟨"u1", "A", "T", false⟩ (by decide) rfl (by decide)
  exact ⟨pr, db', heq, hid⟩

/-! Replacement of a pull-request row inside the table. -/

theorem find?_pr_update {l : List PullRequest} {prID : String} {pr pr' : PullRequest}
    (h : l.find? (fun p => p.id == prID) = some pr) (h' : (pr'.id == prID) = true) :
    (l.map (fun p => if p.id == prID then pr' else p)).find? (fun p => p.id == prID) = some pr' := by
  induction l with
  | nil => simp at h
  | cons hd tl ih =>
    by_cases hh : (hd.id == prID) = true
    · simp only [List.map_cons, if_pos hh]
      exact List.find?_cons_of_pos _ h'
    · rw [@List.find?_cons_of_neg _ (fun p => p.id == prID) hd tl hh] at h
      simp only [List.map_cons, if_neg hh]
      rw [@List.find?_cons_of_neg _ (fun p => p.id == prID) hd
        (List.map (fun p => if (p.id == prID) = true then pr' else p) tl) hh]
      exact ih h

theorem map_update_collapse (l : List PullRequest) (prID : String) (pr₁ pr₂ : PullRequest)
    (h₁ : (pr₁.id == prID) = true) (h₂ : pr₂ = pr₁) :
    (l.map (fun p => if p.id == prID then pr₁ else p)).map (fun p => if p.id == prID then pr₂ else p)
      = l.map (fun p => if p.id == prID then pr₁ else p) := by
  subst h₂
  rw [List.map_map]
  apply List.map_congr_left
  intro p _
  by_cases hp : (p.id == prID) = true
  · simp [Function.comp, hp, h₁]
  · simp [Function.comp, hp]

/-- C8: `mergePullRequest` fails `NOT_FOUND` on an unknown id; on an
existing PR it returns it with status MERGED and a merge timestamp set by
`COALESCE(merged_at, NOW())`, and a second call on the same id succeeds
with the same merge timestamp, the same reviewer list, and an unchanged
database (a no-op update). -/
theorem mergePullRequest_spec (db : DB) (prID : String) (t₁ t₂ : Nat) :
    (db.pullRequests.find? (fun p => p.id == prID) = none →
      mergePullRequest db prID t₁ = .error ⟨.NOT_FOUND, "pull request not found"⟩)
  ∧ (∀ pr, db.pullRequests.find? (fun p => p.id == prID) = some pr →
      ∃ pr₁ db₁, mergePullRequest db prID t₁ = .ok (pr₁, db₁) ∧
        pr₁.status = "MERGED" ∧ pr₁.mergedAt = some (pr.mergedAt.getD t₁) ∧
        pr₁.assignedReviewers = pr.assignedReviewers ∧
        ∃ pr₂ db₂, mergePullRequest db₁ prID t₂ = .ok (pr₂, db₂) ∧
          pr₂.mergedAt = pr₁.mergedAt ∧ pr₂.status = "MERGED" ∧
          pr₂.assignedReviewers = pr₁.assignedReviewers ∧ db₂ = db₁) := by
  constructor
  · intro hnone
    simp only [mergePullRequest, hnone]
  · intro pr hfind
    have hid := List.find?_some hfind
    refine ⟨{ pr with status := "MERGED", mergedAt := some (pr.mergedAt.getD t₁) },
      { db with pullRequests := db.pullRequests.map (fun p =>
          if p.id == prID then { pr with status := "MERGED", mergedAt := some (pr.mergedAt.getD t₁) } else p) },
      ?_, rfl, rfl, rfl, ?_⟩
    · simp only [mergePullRequest, hfind]
    · have hfind₁ : ((db.pullRequests.map (fun p =>
          if p.id == prID then { pr with status := "MERGED", mergedAt := some (pr.mergedAt.getD t₁) } else p))).find?
            (fun p => p.id == prID) =
          some { pr with status := "MERGED", mergedAt := some (pr.mergedAt.getD t₁) } :=
        find?_pr_update hfind hid
      refine ⟨{ pr with status := "MERGED", mergedAt := some (pr.mergedAt.getD t₁) },
        { db with pullRequests := db.pullRequests.map (fun p =>
            if p.id == prID then { pr with status := "MERGED", mergedAt := some (pr.mergedAt.getD t₁) } else p) },
        ?_, rfl, rfl, rfl, rfl⟩
      have hmap := map_update_collapse db.pullRequests prID
        { pr with status := "MERGED", mergedAt := some (pr.mergedAt.getD t₁) }
        { pr with status := "MERGED", mergedAt := some (pr.mergedAt.getD t₁) } hid rfl
      simp only [mergePullRequest, hfind₁, Option.getD_some, hmap]

/-- Witness for C8 at the one-open-PR state: first merge stamps 7, the
second call keeps timestamp 7 and changes nothing. -/
theorem mergePullRequest_spec_witness :
    ∃ pr₁ db₁, mergePullRequest dbP "p1" 7 = .ok (pr₁, db₁) ∧ pr₁.status = "MERGED" ∧
      pr₁.mergedAt = some 7 ∧
      ∃ pr₂ db₂, mergePullRequest db₁ "p1" 9 = .ok (pr₂, db₂) ∧
        pr₂.mergedAt = pr₁.mergedAt ∧ db₂ = db₁ := by
  obtain ⟨-, h2⟩ := mergePullRequest_spec dbP "p1" 7 9
  obtain ⟨pr₁, db₁, heq, hst, hmg, -, pr₂, db₂, heq₂, hmg₂, -, -, hdb⟩ :=
    h2 ⟨"p1", "PR1", "u1", "OPEN", ["u2", "u3"], 5, none⟩ (by decide)
  exact ⟨pr₁, db₁, heq, hst, hmg, pr₂, db₂, heq₂, hmg₂, hdb⟩

theorem replaceReviewer_eq_map (assigned : List String) (o n : String) :
    replaceReviewer assigned o n = assigned.map (fun r => if r = o then n else r) := by
  unfold replaceReviewer
  apply List.map_congr_left
  intro r _
  by_cases h : r = o
  · simp [h]
  · simp [h]

theorem not_mem_replaceReviewer {assigned : List String} {o n : String} (hne : n ≠ o) :
    o ∉ replaceReviewer assigned o n := by
  unfold replaceReviewer
  intro hmem
  obtain ⟨r, _, heq⟩ := List.mem_map.mp hmem
  by_cases h : (r == o) = true
  · rw [if_pos h] at heq
    exact hne heq
  · rw [if_neg h] at heq
    exact h (by simp [heq])

/-- C2: `reassignReviewer` checks its preconditions in source order and
returns exactly the first violated one's error: `NOT_FOUND` when the PR is
missing; else `PR_MERGED` when its status is MERGED; else `NOT_ASSIGNED`
when the old reviewer is not in the assigned set; else `NOT_FOUND` when the
old reviewer does not resolve to a user; else `NO_CANDIDATE` when no
eligible replacement exists, in which case the state (and hence the
assignment set) is left unchanged. -/
theorem reassignReviewer_error_order (db : DB) (prID oldUserID : String) (seed : Nat) :
    (db.pullRequests.find? (fun p => p.id == prID) = none →
      reassignReviewer db prID oldUserID seed = .error ⟨.NOT_FOUND, "pull request not found"⟩)
  ∧ (∀ pr, db.pullRequests.find? (fun p => p.id == prID) = some pr →
      pr.status = "MERGED" →
      reassignReviewer db prID oldUserID seed = .error ⟨.PR_MERGED, "cannot reassign on merged PR"⟩)
  ∧ (∀ pr, db.pullRequests.find? (fun p => p.id == prID) = some pr →
      pr.status ≠ "MERGED" → oldUserID ∉ pr.assignedReviewers →
      reassignReviewer db prID oldUserID seed = .error ⟨.NOT_ASSIGNED, "reviewer is not assigned to this PR"⟩)
  ∧ (∀ pr, db.pullRequests.find? (fun p => p.id == prID) = some pr →
      pr.status ≠ "MERGED" → oldUserID ∈ pr.assignedReviewers →
      db.users.find? (fun u => u.id == oldUserID) = none →
      reassignReviewer db prID oldUserID seed = .error ⟨.NOT_FOUND, "user not found"⟩)
  ∧ (∀ pr oldUser, db.pullRequests.find? (fun p => p.id == prID) = some pr →
      pr.status ≠ "MERGED" → oldUserID ∈ pr.assignedReviewers →
      db.users.find? (fun u => u.id == oldUserID) = some oldUser →
      (∀ u ∈ db.users, ¬(u.teamName = oldUser.teamName ∧ u.isActive = true ∧
        u.id ≠ oldUserID ∧ u.id ≠ pr.authorId ∧ u.id ∉ pr.assignedReviewers)) →
      reassignReviewer db prID oldUserID seed =
        .error ⟨.NO_CANDIDATE, "no active replacement candidate in team"⟩ ∧
      applyOp db (.reassignReviewer prID oldUserID seed) = db) := by
  refine ⟨?_, ?_, ?_, ?_, ?_⟩
  · intro hnone
    simp only [reassignReviewer, hnone]
  · intro pr hfind hst
    simp [reassignReviewer, hfind, hst]
  · intro pr hfind hst hnm
    have hb : (pr.status == "MERGED") = false := by simp [hst]
    have ha : isReviewerAssigned pr.assignedReviewers oldUserID = false := by
      simp only [isReviewerAssigned, List.any_eq_false]
      intro r hr he
      exact hnm ((beq_iff_eq.mp he) ▸ hr)
    simp [reassignReviewer, hfind, hb, ha]
  · intro pr hfind hst hm huser
    have hb : (pr.status == "MERGED") = false := by simp [hst]
    have ha : isReviewerAssigned pr.assignedReviewers oldUserID = true := by
      simp only [isReviewerAssigned, List.any_eq_true]
      exact ⟨oldUserID, hm, by simp⟩
    simp [reassignReviewer, hfind, hb, ha, huser]
  · intro pr oldUser hfind hst hm huser hnone
    have hb : (pr.status == "MERGED") = false := by simp [hst]
    have ha : isReviewerAssigned pr.assignedReviewers oldUserID = true := by
      simp only [isReviewerAssigned, List.any_eq_true]
      exact ⟨oldUserID, hm, by simp⟩
    have hcand : reassignCandidates db oldUser.teamName oldUserID pr.authorId pr.assignedReviewers = [] := by
      unfold reassignCandidates
      rw [List.map_eq_nil_iff, List.filter_eq_nil_iff]
      intro u hu
      simp only [Bool.and_eq_true, beq_iff_eq, bne_iff_ne, ne_eq, Bool.not_eq_true']
      rintro ⟨⟨⟨⟨hteam, hact⟩, hold⟩, hauth⟩, hass⟩
      exact hnone u hu ⟨hteam, hact, hold, hauth, by simpa using hass⟩
    have herr : reassignReviewer db prID oldUserID seed =
        .error ⟨.NO_CANDIDATE, "no active replacement candidate in team"⟩ := by
      simp [reassignReviewer, hfind, hb, ha, huser, hcand]
    refine ⟨herr, ?_⟩
    simp only [applyOp, herr]

/-- C3: when `reassignReviewer` succeeds, the new reviewer list is the old
one with the old reviewer replaced in place by the returned candidate (same
length, all other positions kept), the candidate is an active member of the
old reviewer's team distinct from the PR author, the old reviewer, and
every previously assigned reviewer, and the old reviewer is no longer in
the set while the candidate is. -/
theorem reassignReviewer_ok (db : DB) (prID oldUserID : String) (seed : Nat)
    (pr' : PullRequest) (newUserID : String) (db' : DB)
    (h : reassignReviewer db prID oldUserID seed = .ok (pr', newUserID, db')) :
    ∃ pr oldUser,
      db.pullRequests.find? (fun p => p.id == prID) = some pr ∧
      db.users.find? (fun u => u.id == oldUserID) = some oldUser ∧
      oldUserID ∈ pr.assignedReviewers ∧
      (∃ u ∈ db.users, u.id = newUserID ∧ u.teamName = oldUser.teamName ∧ u.isActive = true) ∧
      newUserID ≠ pr.authorId ∧ newUserID ≠ oldUserID ∧ newUserID ∉ pr.assignedReviewers ∧
      pr'.assignedReviewers = pr.assignedReviewers.map (fun r => if r = oldUserID then newUserID else r) ∧
      pr'.assignedReviewers.length = pr.assignedReviewers.length ∧
      oldUserID ∉ pr'.assignedReviewers ∧
      newUserID ∈ pr'.assignedReviewers ∧
      db' = { db with pullRequests := db.pullRequests.map (fun p => if p.id == prID then pr' else p) } := by
  simp only [reassignReviewer] at h
  split at h
  · exact absurd h (by simp)
  case _ pr hfind =>
    split at h
    · exact absurd h (by simp)
    case _ hb =>
      split at h
      · exact absurd h (by simp)
      case _ hna =>
        split at h
        · exact absurd h (by simp)
        case _ oldUser huser =>
          split at h
          · exact absurd h (by simp)
          case _ newU hget =>
            simp only [Except.ok.injEq, Prod.mk.injEq] at h
            obtain ⟨hpr', hnew, hdb'⟩ := h
            subst hpr'
            subst hnew
            subst hdb'
            have hna' : isReviewerAssigned pr.assignedReviewers oldUserID = true := by
              simpa using hna
            have hm : oldUserID ∈ pr.assignedReviewers := by
              simp only [isReviewerAssigned, List.any_eq_true] at hna'
              obtain ⟨r, hr, hre⟩ := hna'
              exact (beq_iff_eq.mp hre) ▸ hr
            have hcm : newU ∈ reassignCandidates db oldUser.teamName oldUserID pr.authorId pr.assignedReviewers :=
              List.getElem?_mem hget
            obtain ⟨u, hu, huid⟩ := List.mem_map.mp hcm
            have hufilter := List.mem_filter.mp hu
            obtain ⟨humem, hprops⟩ := hufilter
            simp only [Bool.and_eq_true, beq_iff_eq, bne_iff_ne, ne_eq, Bool.not_eq_true'] at hprops
            obtain ⟨⟨⟨⟨hteam, hact⟩, hold⟩, hauth⟩, hass⟩ := hprops
            have hassm : u.id ∉ pr.assignedReviewers := by simpa using hass
            subst huid
            refine ⟨pr, oldUser, hfind, huser, hm, ⟨u, humem, rfl, hteam, hact⟩,
              hauth, hold, hassm, ?_, ?_, ?_, ?_, rfl⟩
            · exact replaceReviewer_eq_map pr.assignedReviewers oldUserID u.id
            · simp [replaceReviewer]
            · exact not_mem_replaceReviewer hold
            · exact List.mem_map.mpr ⟨oldUserID, hm, by simp⟩



/-- Witness for C2: the spec's `NO_CANDIDATE` scenario (author `u1`,
only assigned reviewer `u2`, no third teammate). -/
theorem reassignReviewer_error_order_witness :
    reassignReviewer ⟨["T"], [⟨"u1", "A", "T", true⟩, ⟨"u2", "B", "T", true⟩],
        [⟨"p1", "PR1", "u1", "OPEN", ["u2"], 0, none⟩]⟩ "p1" "u2" 3 =
      .error ⟨.NO_CANDIDATE, "no active replacement candidate in team"⟩ ∧
    applyOp ⟨["T"], [⟨"u1", "A", "T", true⟩, ⟨"u2", "B", "T", true⟩],
        [⟨"p1", "PR1", "u1", "OPEN", ["u2"], 0, none⟩]⟩ (.reassignReviewer "p1" "u2" 3) =
      ⟨["T"], [⟨"u1", "A", "T", true⟩, ⟨"u2", "B", "T", true⟩],
        [⟨"p1", "PR1", "u1", "OPEN", ["u2"], 0, none⟩]⟩ := by
  obtain ⟨-, -, -, -, h5⟩ := reassignReviewer_error_order
    ⟨["T"], [⟨"u1", "A", "T", true⟩, ⟨"u2", "B", "T", true⟩],
      [⟨"p1", "PR1", "u1", "OPEN", ["u2"], 0, none⟩]⟩ "p1" "u2" 3
  exact h5 ⟨"p1", "PR1", "u1", "OPEN", ["u2"], 0, none⟩ ⟨"u2", "B", "T", true⟩
    (by decide) (by decide) (by decide) (by decide) (by decide)

/-- Witness for C3 at the one-open-PR state with seed 0: `u2` is replaced
and `u4` enters the reviewer set. -/
theorem reassignReviewer_ok_witness :
    ("u2" : String) ∉ (["u4", "u3"] : List String) ∧ ("u4" : String) ∈ (["u4", "u3"] : List String) := by
  obtain ⟨pr, oldUser, -, -, -, -, -, -, -, -, -, hnot, hmem, -⟩ :=
    reassignReviewer_ok dbP "p1" "u2" 0
      ⟨"p1", "PR1", "u1", "OPEN", ["u4", "u3"], 5, none⟩ "u4"
      ⟨["T"], dbT.users, [⟨"p1", "PR1", "u1", "OPEN", ["u4", "u3"], 5, none⟩]⟩ (by decide)
  exact ⟨hnot, hmem⟩

/-- C5: `setUserIsActive` fails `NOT_FOUND` when the user does not exist;
deactivating an existing user sets the flag to false and removes the user
from the reviewer set of every non-MERGED pull request while every MERGED
pull request is returned unchanged; activating only sets the flag and
leaves every pull request untouched. -/
theorem setUserIsActive_spec (db : DB) (userID : String) :
    (∀ b, db.users.find? (fun u => u.id == userID) = none →
      setUserIsActive db userID b = .error ⟨.NOT_FOUND, "user not found"⟩)
  ∧ (∀ u, db.users.find? (fun u => u.id == userID) = some u →
      ∃ db', setUserIsActive db userID false = .ok ({ u with isActive := false }, db') ∧
        db'.users = db.users.map (fun x => if x.id = userID then { x with isActive := false } else x) ∧
        db'.pullRequests = db.pullRequests.map (fun p =>
          if p.status = "MERGED" then p
          else { p with assignedReviewers := p.assignedReviewers.filter (fun r => r != userID) }))
  ∧ (∀ u, db.users.find? (fun u => u.id == userID) = some u →
      ∃ db', setUserIsActive db userID true = .ok ({ u with isActive := true }, db') ∧
        db'.users = db.users.map (fun x => if x.id = userID then { x with isActive := true } else x) ∧
        db'.pullRequests = db.pullRequests) := by
  refine ⟨?_, ?_, ?_⟩
  · intro b hnone
    simp only [setUserIsActive, hnone]
  · intro u hu
    refine ⟨{ db with
        users := db.users.map (fun x => if x.id == userID then { x with isActive := false } else x),
        pullRequests := db.pullRequests.map (fun p =>
          if p.assignedReviewers.contains userID && p.status != "MERGED" then
            { p with assignedReviewers := p.assignedReviewers.filter (fun r => r != userID) }
          else p) }, ?_, ?_, ?_⟩
    · simp only [setUserIsActive, hu]
      rfl
    · apply List.map_congr_left
      intro x _
      by_cases hx : x.id = userID
      · rw [if_pos (by simp [hx] : (x.id == userID) = true), if_pos hx]
      · rw [if_neg (by simp [hx] : ¬(x.id == userID) = true), if_neg hx]
    · apply List.map_congr_left
      intro p _
      by_cases hms : p.status = "MERGED"
      · rw [if_neg (by simp [hms]), if_pos hms]
      · by_cases hcon : p.assignedReviewers.contains userID = true
        · rw [if_pos (by rw [Bool.and_eq_true]; exact ⟨hcon, bne_iff_ne.mpr hms⟩), if_neg hms]
        · have hni : userID ∉ p.assignedReviewers := by
            intro hmem
            exact hcon (by simpa using hmem)
          rw [if_neg (by rw [Bool.and_eq_true]; rintro ⟨h1, -⟩; exact hcon h1), if_neg hms,
            List.filter_eq_self.mpr ?all]
          case all =>
            intro r hr
            simp only [bne_iff_ne, ne_eq]
            intro he
            exact hni (he ▸ hr)
  · intro u hu
    refine ⟨{ db with
        users := db.users.map (fun x => if x.id == userID then { x with isActive := true } else x) },
      ?_, ?_, rfl⟩
    · simp only [setUserIsActive, hu]
      rfl
    · apply List.map_congr_left
      intro x _
      by_cases hx : x.id = userID
      · rw [if_pos (by simp [hx] : (x.id == userID) = true), if_pos hx]
      · rw [if_neg (by simp [hx] : ¬(x.id == userID) = true), if_neg hx]

theorem contains_teamIds_eq_any (db : DB) (teamName : String) (r : String) :
    ((List.insertionSort userIdLe (db.users.filter (fun u => u.teamName == teamName))).map User.id).contains r
      = db.users.any (fun u => u.id == r && u.teamName == teamName) := by
  rw [Bool.eq_iff_iff]
  constructor
  · intro h
    have hmem : r ∈ (List.insertionSort userIdLe
        (db.users.filter (fun u => u.teamName == teamName))).map User.id := by
      simpa using h
    rw [List.mem_map] at hmem
    obtain ⟨u, hu, rfl⟩ := hmem
    have hu' := List.mem_filter.mp ((List.perm_insertionSort userIdLe _).mem_iff.mp hu)
    rw [List.any_eq_true]
    exact ⟨u, hu'.1, by simp [beq_iff_eq.mp hu'.2]⟩
  · intro h
    rw [List.any_eq_true] at h
    obtain ⟨u, hu, hcond⟩ := h
    simp only [Bool.and_eq_true, beq_iff_eq] at hcond
    obtain ⟨hid, hteam⟩ := hcond
    have hs : u ∈ List.insertionSort userIdLe (db.users.filter (fun u => u.teamName == teamName)) :=
      (List.perm_insertionSort userIdLe _).mem_iff.mpr (List.mem_filter.mpr ⟨hu, by simp [hteam]⟩)
    have hms : u.id ∈ (List.insertionSort userIdLe
        (db.users.filter (fun u => u.teamName == teamName))).map User.id :=
      List.mem_map.mpr ⟨u, hs, rfl⟩
    simpa [hid] using hms

/-- C6: `deactivateTeamMembers` fails `NOT_FOUND` when the team does not
exist; otherwise it succeeds, reports the team with every member inactive
(the member list covering exactly the team's users), sets every member's
active flag to false in the user table, and removes every member's id from
the reviewer set of every non-MERGED pull request while MERGED pull
requests keep their reviewer sets. -/
theorem deactivateTeamMembers_spec (db : DB) (teamName : String) :
    (teamName ∉ db.teams →
      deactivateTeamMembers db teamName = .error ⟨.NOT_FOUND, "team not found"⟩)
  ∧ (teamName ∈ db.teams →
      ∃ t db', deactivateTeamMembers db teamName = .ok (t, db') ∧
        t.name = teamName ∧
        (∀ m ∈ t.members, m.isActive = false) ∧
        (t.members.map TeamMember.id).Perm
          ((db.users.filter (fun u => u.teamName == teamName)).map User.id) ∧
        db'.users = db.users.map (fun u =>
          if u.teamName = teamName then { u with isActive := false } else u) ∧
        db'.pullRequests = db.pullRequests.map (fun p =>
          if p.status = "MERGED" then p
          else { p with assignedReviewers := (p.assignedReviewers.filter (fun r => !(db.users.any (fun u => u.id == r && u.teamName == teamName)))) })) := by
  constructor
  · intro hnm
    have hc : db.teams.contains teamName = false := by simpa using hnm
    simp only [deactivateTeamMembers, hc]
    rfl
  · intro hm
    have hc : db.teams.contains teamName = true := by simpa using hm
    cases heq : deactivateTeamMembers db teamName with
    | error e =>
      unfold deactivateTeamMembers at heq
      rw [if_pos hc] at heq
      exact Except.noConfusion heq
    | ok pd =>
      obtain ⟨t, db'⟩ := pd
      simp only [deactivateTeamMembers, hc, if_true, Except.ok.injEq, Prod.mk.injEq] at heq
      obtain ⟨ht, hdb⟩ := heq
      subst ht
      subst hdb
      refine ⟨_, _, rfl, rfl, ?_, ?_, ?_, ?_⟩
      · intro m hmem
        obtain ⟨u, -, rfl⟩ := List.mem_map.mp hmem
        rfl
      · rw [List.map_map]
        exact (List.perm_insertionSort userIdLe _).map User.id
      · apply List.map_congr_left
        intro x _
        by_cases hx : x.teamName = teamName
        · rw [if_pos (by simp [hx] : (x.teamName == teamName) = true), if_pos hx]
        · rw [if_neg (by simp [hx] : ¬(x.teamName == teamName) = true), if_neg hx]
      · by_cases hlen : ((List.insertionSort userIdLe
            (db.users.filter (fun u => u.teamName == teamName))).map User.id).length > 0
        · rw [if_pos hlen]
          apply List.map_congr_left
          intro p _
          by_cases hms : p.status = "MERGED"
          · rw [if_neg (by simp [hms]), if_pos hms]
          · by_cases hany : p.assignedReviewers.any (fun r => ((List.insertionSort userIdLe
                (db.users.filter (fun u => u.teamName == teamName))).map User.id).contains r) = true
            · rw [if_pos (by rw [Bool.and_eq_true]; exact ⟨bne_iff_ne.mpr hms, hany⟩), if_neg hms]
              congr 1
              apply List.filter_congr
              intro r _
              rw [contains_teamIds_eq_any]
            · rw [if_neg (by rw [Bool.and_eq_true]; rintro ⟨-, h2⟩; exact hany h2), if_neg hms]
              have hanyf : p.assignedReviewers.any (fun r => ((List.insertionSort userIdLe
                  (db.users.filter (fun u => u.teamName == teamName))).map User.id).contains r) = false := by
                cases hx : p.assignedReviewers.any (fun r => ((List.insertionSort userIdLe
                    (db.users.filter (fun u => u.teamName == teamName))).map User.id).contains r)
                · rfl
                · exact absurd hx hany
              have hall : ∀ r ∈ p.assignedReviewers,
                  (!(db.users.any (fun u => u.id == r && u.teamName == teamName))) = true := by
                intro r hr
                have hz := List.any_eq_false.mp hanyf r hr
                rw [contains_teamIds_eq_any] at hz
                simp [hz]
              rw [List.filter_eq_self.mpr hall]
        · rw [if_neg hlen]
          have hnil : db.users.filter (fun u => u.teamName == teamName) = [] := by
            have h0 : ((List.insertionSort userIdLe
                (db.users.filter (fun u => u.teamName == teamName))).map User.id).length = 0 := by
              omega
            rw [List.length_map, (List.perm_insertionSort userIdLe _).length_eq] at h0
            exact List.length_eq_zero.mp h0
          have hnone : ∀ u ∈ db.users, (u.teamName == teamName) = false := by
            intro u hu
            cases hx : (u.teamName == teamName)
            · rfl
            · exact absurd hx (List.filter_eq_nil_iff.mp hnil u hu)
          have hanyf : ∀ r, db.users.any (fun u => u.id == r && u.teamName == teamName) = false := by
            intro r
            rw [List.any_eq_false]
            intro u hu
            simp [hnone u hu]
          have hid : db.pullRequests.map (fun p =>
              if p.status = "MERGED" then p
              else { p with assignedReviewers := (p.assignedReviewers.filter (fun r => !(db.users.any (fun u => u.id == r && u.teamName == teamName)))) })
              = db.pullRequests.map id := by
            apply List.map_congr_left
            intro p _
            by_cases hms : p.status = "MERGED"
            · rw [if_pos hms]
              rfl
            · rw [if_neg hms]
              have hfe : p.assignedReviewers.filter
                  (fun r => !(db.users.any (fun u => u.id == r && u.teamName == teamName)))
                  = p.assignedReviewers := by
                apply List.filter_eq_self.mpr
                intro r _
                simp [hanyf r]
              rw [hfe]
              rfl
          symm
          rw [hid, List.map_id]
      

/-- Witness for C5: deactivating `u2` strips it from the open PR. -/
theorem setUserIsActive_spec_witness :
    ∃ db', setUserIsActive dbP "u2" false = .ok (⟨"u2", "B", "T", false⟩, db') ∧
      db'.pullRequests.map PullRequest.assignedReviewers = [["u3"]] := by
  obtain ⟨-, h2, -⟩ := setUserIsActive_spec dbP "u2"
  obtain ⟨db', heq, -, hprs⟩ := h2 ⟨"u2", "B", "T", true⟩ (by decide)
  refine ⟨db', heq, ?_⟩
  rw [hprs]
  decide

/-- Witness for C6: deactivating team `T` empties the open PR's reviewer
set and reports all members inactive. -/
theorem deactivateTeamMembers_spec_witness :
    ∃ t db', deactivateTeamMembers dbP "T" = .ok (t, db') ∧
      (∀ m ∈ t.members, m.isActive = false) ∧
      db'.pullRequests.map PullRequest.assignedReviewers = [[]] := by
  obtain ⟨-, h2⟩ := deactivateTeamMembers_spec dbP "T"
  obtain ⟨t, db', heq, -, hmem, -, -, hprs⟩ := h2 (by decide)
  refine ⟨t, db', heq, hmem, ?_⟩
  rw [hprs]
  decide

theorem count_flatMap_reviewers (prs : List PullRequest) (uid : String)
    (h : ∀ p ∈ prs, p.assignedReviewers.Nodup) :
    (prs.flatMap PullRequest.assignedReviewers).count uid
      = (prs.filter (fun p => p.assignedReviewers.contains uid)).length := by
  induction prs with
  | nil => rfl
  | cons hd tl ih =>
    have hhd := h hd (List.mem_cons_self hd tl)
    have htl : ∀ p ∈ tl, p.assignedReviewers.Nodup := fun p hp => h p (List.mem_cons_of_mem hd hp)
    rw [List.flatMap_cons, List.count_append]
    by_cases hc : uid ∈ hd.assignedReviewers
    · have h1 : hd.assignedReviewers.count uid = 1 := by
        have hle := List.nodup_iff_count_le_one.mp hhd uid
        have hge : 0 < hd.assignedReviewers.count uid := List.count_pos_iff.mpr hc
        omega
      rw [h1, List.filter_cons_of_pos (by simpa using hc), List.length_cons, ih htl]
      omega
    · rw [List.count_eq_zero.mpr hc, List.filter_cons_of_neg (by simpa using hc), ih htl]
      omega

/-- C9: `getAssignmentStats` is a pure read returning, for states whose
reviewer lists are duplicate-free, one entry per user id occurring in some
PR's current reviewer set whose count equals the number of pull requests of
any status containing that user, and one entry per pull request carrying
its current reviewer-set size; both listings are ascending by user id and
pull-request id respectively. -/
theorem getAssignmentStats_spec (db : DB)
    (hnd : ∀ pr ∈ db.pullRequests, pr.assignedReviewers.Nodup) :
    (∀ s ∈ (getAssignmentStats db).byUser,
        s.assignments = (db.pullRequests.filter
          (fun p => p.assignedReviewers.contains s.userID)).length)
  ∧ (∀ uid, (∃ s ∈ (getAssignmentStats db).byUser, s.userID = uid) ↔
        ∃ p ∈ db.pullRequests, uid ∈ p.assignedReviewers)
  ∧ List.Sorted strLe ((getAssignmentStats db).byUser.map UserAssignmentStat.userID)
  ∧ ((getAssignmentStats db).byPR.map (fun s => (s.pullRequestID, s.assignments))).Perm
      (db.pullRequests.map (fun p => (p.id, p.assignedReviewers.length)))
  ∧ List.Sorted strLe ((getAssignmentStats db).byPR.map PRAssignmentStat.pullRequestID) := by
  refine ⟨?_, ?_, ?_, ?_, ?_⟩
  · intro s hs
    simp only [getAssignmentStats] at hs
    obtain ⟨uid, -, rfl⟩ := List.mem_map.mp hs
    exact count_flatMap_reviewers db.pullRequests uid hnd
  · intro uid
    constructor
    · rintro ⟨s, hs, rfl⟩
      simp only [getAssignmentStats] at hs
      obtain ⟨v, hv, rfl⟩ := List.mem_map.mp hs
      have hvm : v ∈ (db.pullRequests.flatMap PullRequest.assignedReviewers).dedup :=
        (List.perm_insertionSort strLe _).mem_iff.mp hv
      rw [List.mem_dedup, List.mem_flatMap] at hvm
      exact hvm
    · rintro ⟨p, hp, hup⟩
      have hocc : uid ∈ (db.pullRequests.flatMap PullRequest.assignedReviewers).dedup := by
        rw [List.mem_dedup, List.mem_flatMap]
        exact ⟨p, hp, hup⟩
      have hk : uid ∈ List.insertionSort strLe (db.pullRequests.flatMap PullRequest.assignedReviewers).dedup :=
        (List.perm_insertionSort strLe _).mem_iff.mpr hocc
      refine ⟨⟨uid, (db.pullRequests.flatMap PullRequest.assignedReviewers).count uid⟩, ?_, rfl⟩
      simp only [getAssignmentStats]
      exact List.mem_map.mpr ⟨uid, hk, rfl⟩
  · have heq : (getAssignmentStats db).byUser.map UserAssignmentStat.userID
        = List.insertionSort strLe (db.pullRequests.flatMap PullRequest.assignedReviewers).dedup := by
      simp only [getAssignmentStats]
      rw [List.map_map]
      calc (List.insertionSort strLe (db.pullRequests.flatMap PullRequest.assignedReviewers).dedup).map
            (UserAssignmentStat.userID ∘ fun uid =>
              ({ userID := uid,
                 assignments := (db.pullRequests.flatMap PullRequest.assignedReviewers).count uid } : UserAssignmentStat))
          = (List.insertionSort strLe (db.pullRequests.flatMap PullRequest.assignedReviewers).dedup).map id :=
            List.map_congr_left (fun a _ => rfl)
        _ = _ := List.map_id _
    rw [heq]
    exact List.sorted_insertionSort strLe _
  · have heq : (getAssignmentStats db).byPR.map (fun s => (s.pullRequestID, s.assignments))
        = (List.insertionSort prIdLe db.pullRequests).map (fun p => (p.id, p.assignedReviewers.length)) := by
      simp only [getAssignmentStats]
      rw [List.map_map]
      exact List.map_congr_left (fun a _ => rfl)
    rw [heq]
    exact (List.perm_insertionSort prIdLe db.pullRequests).map _
  · have heq : (getAssignmentStats db).byPR.map PRAssignmentStat.pullRequestID
        = (List.insertionSort prIdLe db.pullRequests).map (fun p => p.id) := by
      simp only [getAssignmentStats]
      rw [List.map_map]
      exact List.map_congr_left (fun a _ => rfl)
    rw [heq]
    exact List.pairwise_map.mpr (List.sorted_insertionSort prIdLe db.pullRequests)

/-- Witness for C9 at the one-open-PR state. -/
theorem getAssignmentStats_spec_witness :
    (∀ s ∈ (getAssignmentStats dbP).byUser,
        s.assignments = (dbP.pullRequests.filter
          (fun p => p.assignedReviewers.contains s.userID)).length)
  ∧ List.Sorted strLe ((getAssignmentStats dbP).byUser.map UserAssignmentStat.userID) := by
  obtain ⟨h1, -, h3, -, -⟩ := getAssignmentStats_spec dbP (by decide)
  exact ⟨h1, h3⟩

theorem map_ids_eq_of_preserve (us : List User) (g : User → User)
    (hg : ∀ u, (g u).id = u.id) : (us.map g).map User.id = us.map User.id := by
  rw [List.map_map]
  exact List.map_congr_left (fun u _ => hg u)

theorem upsertUser_ids_nodup (us : List User) (u : User) (h : (us.map User.id).Nodup) :
    ((upsertUser us u).map User.id).Nodup := by
  unfold upsertUser
  split
  case isTrue hany =>
    have hids : (us.map (fun x => if x.id == u.id then u else x)).map User.id = us.map User.id := by
      rw [List.map_map]
      apply List.map_congr_left
      intro x _
      show (if (x.id == u.id) = true then u else x).id = x.id
      by_cases hx : (x.id == u.id) = true
      · rw [if_pos hx]
        exact (beq_iff_eq.mp hx).symm
      · rw [if_neg hx]
    rw [hids]
    exact h
  case isFalse hany =>
    rw [List.map_append]
    rw [List.nodup_append]
    refine ⟨h, List.nodup_singleton u.id, ?_⟩
    intro a ha hb
    rw [List.map_singleton, List.mem_singleton] at hb
    subst hb
    obtain ⟨x, hx, hxid⟩ := List.mem_map.mp ha
    have : us.any (fun x => x.id == u.id) = true := List.any_eq_true.mpr ⟨x, hx, by simp [hxid]⟩
    simp [this] at hany

theorem foldl_upsert_ids_nodup (members : List TeamMember) (tn : String) :
    ∀ us : List User, (us.map User.id).Nodup →
      ((members.foldl (fun us m => upsertUser us ⟨m.id, m.username, tn, m.isActive⟩) us).map User.id).Nodup := by
  induction members with
  | nil => exact fun us h => h
  | cons m ms ih =>
    intro us h
    rw [List.foldl_cons]
    exact ih _ (upsertUser_ids_nodup us _ h)

theorem replaceReviewer_nodup {l : List String} {o n : String}
    (hl : l.Nodup) (hn : n ∉ l) : (replaceReviewer l o n).Nodup := by
  induction l with
  | nil => exact List.nodup_nil
  | cons a as ih =>
    simp only [replaceReviewer, List.map_cons]
    rw [List.nodup_cons] at hl
    obtain ⟨ha, has⟩ := hl
    have hna : n ≠ a := fun he => hn (he ▸ List.mem_cons_self a as)
    have hn' : n ∉ as := fun hmem => hn (List.mem_cons_of_mem a hmem)
    rw [List.nodup_cons]
    refine ⟨?_, ih has hn'⟩
    intro hmem
    obtain ⟨b, hb, hfb⟩ := List.mem_map.mp hmem
    by_cases hao : (a == o) = true
    · rw [if_pos hao] at hfb
      by_cases hbo : (b == o) = true
      · rw [if_pos hbo] at hfb
        exact ha ((beq_iff_eq.mp hao).trans (beq_iff_eq.mp hbo).symm ▸ hb)
      · rw [if_neg hbo] at hfb
        exact hn' (hfb ▸ hb)
    · rw [if_neg hao] at hfb
      by_cases hbo : (b == o) = true
      · rw [if_pos hbo] at hfb
        exact hna hfb
      · rw [if_neg hbo] at hfb
        exact ha (hfb ▸ hb)

theorem PRWf_filter (pr : PullRequest) (q : String → Bool) (h : PRWf pr) :
    PRWf { pr with assignedReviewers := pr.assignedReviewers.filter q } := by
  obtain ⟨h1, h2, h3⟩ := h
  refine ⟨le_trans (List.length_filter_le _ _) h1,
    List.Nodup.sublist (List.filter_sublist _) h2, ?_⟩
  intro hmem
  exact h3 (List.mem_of_mem_filter hmem)

theorem DBWf_createTeam (db : DB) (t : Team) (h : DBWf db) :
    DBWf (applyOp db (.createTeam t)) := by
  simp only [applyOp]
  cases heq : createTeam db t with
  | error e => exact h
  | ok pd =>
    obtain ⟨t', db'⟩ := pd
    unfold createTeam at heq
    split at heq
    · exact absurd heq (by simp)
    · simp only [Except.ok.injEq, Prod.mk.injEq] at heq
      obtain ⟨-, hdb⟩ := heq
      subst hdb
      exact ⟨foldl_upsert_ids_nodup t.members t.name db.users h.1, h.2⟩

theorem DBWf_createPullRequest (db : DB) (id name authorID : String) (now : Nat) (h : DBWf db) :
    DBWf (applyOp db (.createPullRequest id name authorID now)) := by
  simp only [applyOp]
  cases heq : createPullRequest db id name authorID now with
  | error e => exact h
  | ok pd =>
    obtain ⟨pr, db'⟩ := pd
    unfold createPullRequest at heq
    split at heq
    · exact absurd heq (by simp)
    split at heq
    · exact absurd heq (by simp)
    case _ author hauthor =>
      simp only [Except.ok.injEq, Prod.mk.injEq] at heq
      obtain ⟨hpr, hdb⟩ := heq
      subst hpr
      subst hdb
      refine ⟨h.1, ?_⟩
      intro q hq
      rcases List.mem_append.mp hq with hq | hq
      · exact h.2 q hq
      · rw [List.mem_singleton] at hq
        subst hq
        have hpoolNodup : ((initialReviewerPool db author.teamName authorID).map User.id).Nodup :=
          List.Nodup.sublist ((List.filter_sublist db.users).map User.id) h.1
      
        have hperm := List.perm_insertionSort strLe ((initialReviewerPool db author.teamName authorID).map User.id)
        refine ⟨?_, ?_, ?_⟩
        · rw [List.length_take]
          exact min_le_left 2 _
        · exact List.Nodup.sublist (List.take_sublist 2 _) (hperm.symm.nodup hpoolNodup)
        · intro hmem
          have : authorID ∈ (initialReviewerPool db author.teamName authorID).map User.id :=
            hperm.mem_iff.mp (List.take_subset 2 _ hmem)
          obtain ⟨u, hu, huid⟩ := List.mem_map.mp this
          have := (List.mem_filter.mp hu).2
          simp only [Bool.and_eq_true, bne_iff_ne, ne_eq] at this
          exact this.1.2 huid

theorem DBWf_mergePullRequest (db : DB) (prID : String) (now : Nat) (h : DBWf db) :
    DBWf (applyOp db (.mergePullRequest prID now)) := by
  simp only [applyOp]
  cases heq : mergePullRequest db prID now with
  | error e => exact h
  | ok pd =>
    obtain ⟨pr', db'⟩ := pd
    unfold mergePullRequest at heq
    split at heq
    · exact absurd heq (by simp)
    case _ pr hfind =>
      simp only [Except.ok.injEq, Prod.mk.injEq] at heq
      obtain ⟨hpr, hdb⟩ := heq
      subst hpr
      subst hdb
      refine ⟨h.1, ?_⟩
      intro q hq
      obtain ⟨p, hp, hq⟩ := List.mem_map.mp hq
      by_cases hc : (p.id == prID) = true
      · rw [if_pos hc] at hq
        subst hq
        exact h.2 pr (List.mem_of_find?_eq_some hfind)
      · rw [if_neg hc] at hq
        subst hq
        exact h.2 p hp

theorem DBWf_reassignReviewer (db : DB) (prID oldUserID : String) (seed : Nat) (h : DBWf db) :
    DBWf (applyOp db (.reassignReviewer prID oldUserID seed)) := by
  simp only [applyOp]
  cases heq : reassignReviewer db prID oldUserID seed with
  | error e => exact h
  | ok trip =>
    obtain ⟨pr', newU, db'⟩ := trip
    simp only [reassignReviewer] at heq
    split at heq
    · exact absurd heq (by simp)
    case _ pr hfind =>
      split at heq
      · exact absurd heq (by simp)
      split at heq
      · exact absurd heq (by simp)
      case _ hb hna =>
        split at heq
        · exact absurd heq (by simp)
        case _ oldUser huser =>
          split at heq
          · exact absurd heq (by simp)
          case _ cand hget =>
            simp only [Except.ok.injEq, Prod.mk.injEq] at heq
            obtain ⟨hpr, hnew, hdb⟩ := heq
            subst hpr
            subst hnew
            subst hdb
            have hwf := h.2 pr (List.mem_of_find?_eq_some hfind)
            have hcm := List.getElem?_mem hget
            obtain ⟨u, hu, huid⟩ := List.mem_map.mp hcm
            have hprops := (List.mem_filter.mp hu).2
            simp only [Bool.and_eq_true, beq_iff_eq, bne_iff_ne, ne_eq, Bool.not_eq_true'] at hprops
            obtain ⟨⟨⟨⟨-, -⟩, hold⟩, hauth⟩, hass⟩ := hprops
            have hassm : u.id ∉ pr.assignedReviewers := by simpa using hass
            subst huid
            refine ⟨h.1, ?_⟩
            intro q hq
            obtain ⟨p, hp, hq⟩ := List.mem_map.mp hq
            by_cases hc : (p.id == prID) = true
            · rw [if_pos hc] at hq
              subst hq
              refine ⟨?_, ?_, ?_⟩
              · show (replaceReviewer pr.assignedReviewers oldUserID u.id).length ≤ 2
                rw [replaceReviewer, List.length_map]
                exact hwf.1
              · exact replaceReviewer_nodup hwf.2.1 hassm
              · show pr.authorId ∉ replaceReviewer pr.assignedReviewers oldUserID u.id
                intro hmem
                obtain ⟨r, hr, hfr⟩ := List.mem_map.mp hmem
                by_cases hro : (r == oldUserID) = true
                · rw [if_pos hro] at hfr
                  exact hauth hfr
                · rw [if_neg hro] at hfr
                  exact hwf.2.2 (hfr ▸ hr)
            · rw [if_neg hc] at hq
              subst hq
              exact h.2 p hp

theorem DBWf_setUserIsActive (db : DB) (userID : String) (isActive : Bool) (h : DBWf db) :
    DBWf (applyOp db (.setUserIsActive userID isActive)) := by
  simp only [applyOp]
  cases heq : setUserIsActive db userID isActive with
  | error e => exact h
  | ok pd =>
    obtain ⟨u', db'⟩ := pd
    unfold setUserIsActive at heq
    split at heq
    · exact absurd heq (by simp)
    case _ u hu =>
      have hids : (db.users.map (fun x =>
          if x.id == userID then { x with isActive := isActive } else x)).map User.id
          = db.users.map User.id := by
        apply map_ids_eq_of_preserve
        intro x
        by_cases hx : (x.id == userID) = true
        · rw [if_pos hx]
        · rw [if_neg hx]
      split at heq
      · simp only [Except.ok.injEq, Prod.mk.injEq] at heq
        obtain ⟨-, hdb⟩ := heq
        subst hdb
        exact ⟨hids ▸ h.1, h.2⟩
      · simp only [Except.ok.injEq, Prod.mk.injEq] at heq
        obtain ⟨-, hdb⟩ := heq
        subst hdb
        refine ⟨hids ▸ h.1, ?_⟩
        intro q hq
        obtain ⟨p, hp, hq⟩ := List.mem_map.mp hq
        by_cases hc : (p.assignedReviewers.contains userID && p.status != "MERGED") = true
        · rw [if_pos hc] at hq
          subst hq
          exact PRWf_filter p _ (h.2 p hp)
        · rw [if_neg hc] at hq
          subst hq
          exact h.2 p hp

theorem DBWf_deactivateTeamMembers (db : DB) (teamName : String) (h : DBWf db) :
    DBWf (applyOp db (.deactivateTeamMembers teamName)) := by
  simp only [applyOp]
  cases heq : deactivateTeamMembers db teamName with
  | error e => exact h
  | ok pd =>
    obtain ⟨t, db'⟩ := pd
    show DBWf db'
    simp only [deactivateTeamMembers] at heq
    split at heq
    case isTrue hc =>
      simp only [Except.ok.injEq, Prod.mk.injEq] at heq
      obtain ⟨-, hdb⟩ := heq
      subst hdb
      have hids : (db.users.map (fun x =>
          if x.teamName == teamName then { x with isActive := false } else x)).map User.id
          = db.users.map User.id := by
        apply map_ids_eq_of_preserve
        intro x
        by_cases hx : (x.teamName == teamName) = true
        · rw [if_pos hx]
        · rw [if_neg hx]
      refine ⟨hids ▸ h.1, ?_⟩
      intro q hq
      split at hq
      · obtain ⟨p, hp, hq⟩ := List.mem_map.mp hq
        split at hq
        · subst hq
          exact PRWf_filter p _ (h.2 p hp)
        · subst hq
          exact h.2 p hp
      · exact h.2 q hq
    case isFalse => exact absurd heq (by simp)

theorem DBWf_applyOp (db : DB) (op : Op) (h : DBWf db) : DBWf (applyOp db op) := by
  cases op with
  | createTeam t => exact DBWf_createTeam db t h
  | createPullRequest id name authorID now => exact DBWf_createPullRequest db id name authorID now h
  | mergePullRequest prID now => exact DBWf_mergePullRequest db prID now h
  | reassignReviewer prID oldUserID seed => exact DBWf_reassignReviewer db prID oldUserID seed h
  | setUserIsActive userID isActive => exact DBWf_setUserIsActive db userID isActive h
  | deactivateTeamMembers teamName => exact DBWf_deactivateTeamMembers db teamName h

theorem DBWf_foldl (ops : List Op) : ∀ db : DB, DBWf db → DBWf (ops.foldl applyOp db) := by
  induction ops with
  | nil => exact fun db h => h
  | cons op ops ih =>
    intro db h
    rw [List.foldl_cons]
    exact ih _ (DBWf_applyOp db op h)

/-- C4: every service call preserves database well-formedness, and in every
state reachable from the empty database by any sequence of service calls,
every pull request's assigned-reviewer set has at most 2 elements, contains
no duplicate user ids, and never contains the PR's author. -/
theorem reviewer_set_invariant :
    (∀ (db : DB) (op : Op), DBWf db → DBWf (applyOp db op)) ∧
    (∀ ops : List Op, ∀ pr ∈ (runOps ops).pullRequests,
      pr.assignedReviewers.length ≤ 2 ∧ pr.assignedReviewers.Nodup ∧
        pr.authorId ∉ pr.assignedReviewers) := by
  refine ⟨DBWf_applyOp, ?_⟩
  intro ops pr hpr
  have hwf := DBWf_foldl ops initDB ⟨List.nodup_nil, fun pr hpr => absurd hpr (List.not_mem_nil pr)⟩
  exact hwf.2 pr hpr


/-- Witness for C4: one preserved step at a concrete state and the concrete
pull request reached by a create-team / create-PR run. -/
theorem reviewer_set_invariant_witness :
    DBWf (applyOp dbP (Op.mergePullRequest "p1" 7)) ∧
    ((⟨"p1", "PR1", "u1", "OPEN", ["u2", "u3"], 0, none⟩ : PullRequest).assignedReviewers.length ≤ 2 ∧
      (⟨"p1", "PR1", "u1", "OPEN", ["u2", "u3"], 0, none⟩ : PullRequest).assignedReviewers.Nodup ∧
      (⟨"p1", "PR1", "u1", "OPEN", ["u2", "u3"], 0, none⟩ : PullRequest).authorId ∉
        (⟨"p1", "PR1", "u1", "OPEN", ["u2", "u3"], 0, none⟩ : PullRequest).assignedReviewers) := by
  obtain ⟨h1, h2⟩ := reviewer_set_invariant
  refine ⟨h1 dbP (Op.mergePullRequest "p1" 7) ?_,
    h2 [Op.createTeam ⟨"T", [⟨"u1", "A", true⟩, ⟨"u2", "B", true⟩, ⟨"u3", "C", true⟩]⟩,
        Op.createPullRequest "p1" "PR1" "u1" 0]
      ⟨"p1", "PR1", "u1", "OPEN", ["u2", "u3"], 0, none⟩ ?_⟩
  · unfold DBWf PRWf
    decide
  · decide

theorem createPullRequest_users_unchanged (db : DB) (id name authorID : String) (now : Nat) :
    ∀ pr db', createPullRequest db id name authorID now = .ok (pr, db') → db'.users = db.users := by
  intro pr db' h
  unfold createPullRequest at h
  split at h
  · exact absurd h (by simp)
  split at h
  · exact absurd h (by simp)
  · simp only [Except.ok.injEq, Prod.mk.injEq] at h
    obtain ⟨-, hdb⟩ := h
    subst hdb
    rfl

theorem mergePullRequest_users_unchanged (db : DB) (prID : String) (now : Nat) :
    ∀ pr db', mergePullRequest db prID now = .ok (pr, db') → db'.users = db.users := by
  intro pr db' h
  unfold mergePullRequest at h
  split at h
  · exact absurd h (by simp)
  · simp only [Except.ok.injEq, Prod.mk.injEq] at h
    obtain ⟨-, hdb⟩ := h
    subst hdb
    rfl

theorem reassignReviewer_users_unchanged (db : DB) (prID oldUserID : String) (seed : Nat) :
    ∀ pr uid db', reassignReviewer db prID oldUserID seed = .ok (pr, uid, db') →
      db'.users = db.users := by
  intro pr uid db' h
  simp only [reassignReviewer] at h
  split at h
  · exact absurd h (by simp)
  split at h
  · exact absurd h (by simp)
  split at h
  · exact absurd h (by simp)
  split at h
  · exact absurd h (by simp)
  split at h
  · exact absurd h (by simp)
  · simp only [Except.ok.injEq, Prod.mk.injEq] at h
    obtain ⟨-, -, hdb⟩ := h
    subst hdb
    rfl

/-- Counterexample to C7: after `CreateTeam "A"` creates user `u1` with
team `A`, a later `CreateTeam "B"` whose member list reuses id `u1` upserts
the row with `team_name = EXCLUDED.team_name`, changing the existing user's
team reference from `A` to `B`. -/
theorem createTeam_reassigns_existing_user_team :
    (applyOp initDB (Op.createTeam ⟨"A", [⟨"u1", "U1", true⟩]⟩)).users
      = [⟨"u1", "U1", "A", true⟩] ∧
    (applyOp (applyOp initDB (Op.createTeam ⟨"A", [⟨"u1", "U1", true⟩]⟩))
        (Op.createTeam ⟨"B", [⟨"u1", "U1", true⟩]⟩)).users
      = [⟨"u1", "U1", "B", true⟩] := by
  decide

/-- C7 amended: a user's owning team is set when the user row is first
created and is changed only by a later `CreateTeam` whose member list
reuses the user's id (the upsert overwrites `team_name`); every operation
other than `CreateTeam` preserves every existing user's team reference. -/
theorem userTeam_immutable_outside_createTeam (db : DB) (op : Op)
    (hop : ∀ t, op ≠ Op.createTeam t) :
    ∀ u' ∈ (applyOp db op).users, ∃ u ∈ db.users, u.id = u'.id ∧ u.teamName = u'.teamName := by
  have hkeep : ∀ u' ∈ db.users, ∃ u ∈ db.users, u.id = u'.id ∧ u.teamName = u'.teamName :=
    fun u' hu' => ⟨u', hu', rfl, rfl⟩
  cases op with
  | createTeam t => exact absurd rfl (hop t)
  | createPullRequest id name authorID now =>
    simp only [applyOp]
    cases heq : createPullRequest db id name authorID now with
    | error e => exact hkeep
    | ok pd =>
      obtain ⟨pr, db'⟩ := pd
      rw [createPullRequest_users_unchanged db id name authorID now pr db' heq]
      exact hkeep
  | mergePullRequest prID now =>
    simp only [applyOp]
    cases heq : mergePullRequest db prID now with
    | error e => exact hkeep
    | ok pd =>
      obtain ⟨pr, db'⟩ := pd
      rw [mergePullRequest_users_unchanged db prID now pr db' heq]
      exact hkeep
  | reassignReviewer prID oldUserID seed =>
    simp only [applyOp]
    cases heq : reassignReviewer db prID oldUserID seed with
    | error e => exact hkeep
    | ok trip =>
      obtain ⟨pr, uid, db'⟩ := trip
      rw [reassignReviewer_users_unchanged db prID oldUserID seed pr uid db' heq]
      exact hkeep
  | setUserIsActive userID isActive =>
    simp only [applyOp]
    cases heq : setUserIsActive db userID isActive with
    | error e => exact hkeep
    | ok pd =>
      obtain ⟨u, db'⟩ := pd
      show ∀ u' ∈ db'.users, _
      unfold setUserIsActive at heq
      split at heq
      · exact absurd heq (by simp)
      split at heq
      · simp only [Except.ok.injEq, Prod.mk.injEq] at heq
        obtain ⟨-, hdb⟩ := heq
        subst hdb
        intro u' hu'
        obtain ⟨x, hx, hxu⟩ := List.mem_map.mp hu'
        refine ⟨x, hx, ?_⟩
        subst hxu
        by_cases hc : (x.id == userID) = true
        · rw [if_pos hc]
          exact ⟨rfl, rfl⟩
        · rw [if_neg hc]
          exact ⟨rfl, rfl⟩
      · simp only [Except.ok.injEq, Prod.mk.injEq] at heq
        obtain ⟨-, hdb⟩ := heq
        subst hdb
        intro u' hu'
        obtain ⟨x, hx, hxu⟩ := List.mem_map.mp hu'
        refine ⟨x, hx, ?_⟩
        subst hxu
        by_cases hc : (x.id == userID) = true
        · rw [if_pos hc]
          exact ⟨rfl, rfl⟩
        · rw [if_neg hc]
          exact ⟨rfl, rfl⟩
  | deactivateTeamMembers teamName =>
    simp only [applyOp]
    cases heq : deactivateTeamMembers db teamName with
    | error e => exact hkeep
    | ok pd =>
      obtain ⟨t, db'⟩ := pd
      show ∀ u' ∈ db'.users, _
      simp only [deactivateTeamMembers] at heq
      split at heq
      case isTrue hc =>
        simp only [Except.ok.injEq, Prod.mk.injEq] at heq
        obtain ⟨-, hdb⟩ := heq
        subst hdb
        intro u' hu'
        obtain ⟨x, hx, hxu⟩ := List.mem_map.mp hu'
        refine ⟨x, hx, ?_⟩
        subst hxu
        by_cases hcx : (x.teamName == teamName) = true
        · rw [if_pos hcx]
          exact ⟨rfl, rfl⟩
        · rw [if_neg hcx]
          exact ⟨rfl, rfl⟩
      case isFalse => exact absurd heq (by simp)

/-- Witness for the amended C7 at a merge call on a concrete state. -/
theorem userTeam_immutable_outside_createTeam_witness :
    ∃ u ∈ dbT.users, u.id = "u1" ∧ u.teamName = "T" := by
  have h := userTeam_immutable_outside_createTeam dbT (Op.mergePullRequest "p" 0)
    (fun t ht => Op.noConfusion ht) ⟨"u1", "A", "T", true⟩ (by decide)
  obtain ⟨u, hu, hid, hteam⟩ := h
  exact ⟨u, hu, hid, hteam⟩

end Avito
